import Mathlib

/-!
# Granch: the two-stage branch/category selection and the branch-name rule

A shallow embedding of `main.go`.  Go `string`s are Lean `String`s (process output
is taken to be text), Go `int`s that are only stored and compared are `Int`,
a nil-able Go `error` is `Option GoError`, and the three external collaborators the
program calls (the random source behind `uuid.New`, `git checkout -b`, and the key
handling of the list widget) are fields of an explicit environment `Env`.
-/

namespace Granch

/-! ## Data model -/

/-- Go `error` value, identified with the text its `Error()` method returns. -/
structure GoError where
  msg : String
deriving DecidableEq, Repr

/-- The `branchItem` struct: a branch in the list. -/
structure branchItem where
  name : String
deriving DecidableEq, Repr

/-- The `categoryItem` struct: a category in the list. -/
structure categoryItem where
  Display : String
  Code : String
deriving DecidableEq, Repr

/-- The package-level `categories` table (display name, branch prefix). -/
def categories : List (String × String) :=
  [("CI/CD", "ci"), ("Feature", "feat"), ("Fix", "fix"),
   ("Performance", "perf"), ("Refactor", "refactor"), ("Test", "test")]

/-- The `list.Item` interface as a tagged union of its two implementations in this program. -/
inductive Item where
  | branch (b : branchItem)
  | category (c : categoryItem)
deriving DecidableEq, Repr

/-- The part of the list widget (`list.Model`) the program relies on: the items it was
given, the index its cursor is on, and its size. -/
structure ListModel where
  items : List Item
  index : Int
  width : Int
  height : Int
deriving DecidableEq, Repr

namespace ListModel

/-- The widget call `SetItems`: replaces the items. -/
def SetItems (l : ListModel) (i : List Item) : ListModel := { l with items := i }

/-- The widget call `Select`: puts the cursor on the given index. -/
def Select (l : ListModel) (index : Int) : ListModel := { l with index := index }

/-- The widget call `SetSize`. -/
def SetSize (l : ListModel) (width height : Int) : ListModel :=
  { l with width := width, height := height }

/-- The widget call `Items`. -/
def Items (l : ListModel) : List Item := l.items

/-- The widget call `SelectedItem`: the item under the cursor, `none` (Go `nil`) when the
index is negative or not below the number of items. -/
def SelectedItem (l : ListModel) : Option Item :=
  if l.index < 0 ∨ l.items.length = 0 ∨ (l.items.length : Int) ≤ l.index then none
  else l.items.get? l.index.toNat

end ListModel

/-- The `model` struct: the TUI state. -/
structure model where
  stage : Int
  branches : ListModel
  categories : ListModel
  selectedBranch : branchItem
  err : Option GoError
  width : Int
  height : Int
deriving DecidableEq, Repr

/-- The constructor `newModel`: stage 0, two empty lists, size 80 x 20. -/
def newModel : model :=
  { stage := 0
    branches := ⟨[], 0, 0, 0⟩
    categories := ⟨[], 0, 0, 0⟩
    selectedBranch := ⟨""⟩
    err := none
    width := 80
    height := 20 }

/-- Messages handled by `Update`. `KeyMsg` carries the key's `String()`; the last
constructor stands for every message type `Update` has no case for. -/
inductive Msg where
  | branchesMsgWithSelection (items : List Item) (selectedIx : Int)
  | errMsg (err : Option GoError)
  | WindowSizeMsg (Width Height : Int)
  | KeyMsg (key : String)
  | otherMsg (tag : Nat)
deriving DecidableEq, Repr

/-- A non-nil `tea.Cmd`: either `tea.Quit` or a command handed back by the list widget. -/
inductive Cmd where
  | Quit
  | widget (tag : Nat)
deriving DecidableEq, Repr

/-! ## Identifier text (`uuid.New`, `UUID.String`) -/

/-- A 128-bit identifier: sixteen bytes. -/
abbrev UUID := Fin 16 → Fin 256

/-- The digit table used by `hex.Encode`. -/
def hextable : List Char := "0123456789abcdef".toList

/-- Hex digit of a nibble. -/
def hexDigit (n : Nat) : Char := hextable.getD n '0'

/-- Value of a hex digit, the inverse of `hexDigit` on nibbles. -/
def unhex (c : Char) : Nat := hextable.indexOf c

/-- The routine `hex.Encode`: two lower-case digits per byte, high nibble first. -/
def hexEncode (src : List (Fin 256)) : List Char :=
  src.flatMap fun v => [hexDigit (v.val / 16), hexDigit (v.val % 16)]

/-- The routine `encodeHex` behind `UUID.String`: the 36-character hyphenated form. -/
def encodeHex (uuid : UUID) : List Char :=
  hexEncode [uuid 0, uuid 1, uuid 2, uuid 3] ++ ['-'] ++
  hexEncode [uuid 4, uuid 5] ++ ['-'] ++
  hexEncode [uuid 6, uuid 7] ++ ['-'] ++
  hexEncode [uuid 8, uuid 9] ++ ['-'] ++
  hexEncode [uuid 10, uuid 11, uuid 12, uuid 13, uuid 14, uuid 15]

/-- The method `UUID.String`. -/
def UUID.String (uuid : UUID) : String := ⟨encodeHex uuid⟩

/-- The constructor `uuid.New` as a function of the sixteen bytes read from the random
source: byte 6 gets version 4, byte 8 gets the variant bits. (The call panics when the
random source fails; that path is outside the model.) -/
def uuidNew (rnd : Fin 16 → Fin 256) : UUID := fun i =>
  if i = 6 then Fin.ofNat ((((rnd 6).val &&& 0x0f) ||| 0x40) % 2 ^ 8)
  else if i = 8 then Fin.ofNat ((((rnd 8).val &&& 0x3f) ||| 0x80) % 2 ^ 8)
  else rnd i

/-- The slice expression `s[:n]` on a string of one-byte characters. -/
def sliceTo (s : String) (n : Nat) : String := ⟨s.data.take n⟩

/-- The name built on line 201: `fmt.Sprintf("@%s/%s", code, id.String()[:8])`. -/
def branchName (code : String) (id : UUID) : String :=
  "@" ++ code ++ "/" ++ sliceTo id.String 8

/-! ## Fetching the branches -/

/-- The predicate `unicode.IsSpace`. -/
def isSpace (c : Char) : Bool :=
  c = '\t' || c = '\n' || c = '\x0b' || c = '\x0c' || c = '\r' || c = ' ' ||
  c.toNat = 0x85 || c.toNat = 0xA0 || c.toNat = 0x1680 ||
  (0x2000 ≤ c.toNat && c.toNat ≤ 0x200a) ||
  c.toNat = 0x2028 || c.toNat = 0x2029 || c.toNat = 0x202f ||
  c.toNat = 0x205f || c.toNat = 0x3000

/-- The routine `bytes.TrimSpace`: drops leading and trailing white space. -/
def TrimSpace (s : List Char) : List Char :=
  ((s.dropWhile isSpace).reverse.dropWhile isSpace).reverse

/-- The routine `bytes.Split` with separator `"\n"`: the pieces between newlines; the
empty input gives one empty piece. -/
def splitNewline : List Char → List (List Char)
  | [] => [[]]
  | c :: cs =>
    if c = '\n' then [] :: splitNewline cs
    else
      match splitNewline cs with
      | [] => [[c]]
      | l :: ls => (c :: l) :: ls

/-- What `exec.Cmd.Output` returns: the captured standard output and the error. -/
structure CmdOutput where
  out : String
  err : Option GoError
deriving DecidableEq, Repr

/-- The `for i, line := range lines` loop of `fetchBranchesCmd`, started at index `i`
with the items and the selected index accumulated so far. -/
def fetchLoop (currentBranch : String) :
    List String → Nat → List Item → Nat → List Item × Nat
  | [], _, items, selectedIndex => (items, selectedIndex)
  | branch :: rest, i, items, selectedIndex =>
    if branch ≠ "" then
      fetchLoop currentBranch rest (i + 1) (items ++ [Item.branch ⟨branch⟩])
        (if branch = currentBranch then i else selectedIndex)
    else
      fetchLoop currentBranch rest (i + 1) items selectedIndex

/-- The lines `fetchBranchesCmd` iterates over: the trimmed listing split at newlines. -/
def listingLines (out : String) : List String :=
  (splitNewline (TrimSpace out.data)).map String.mk

/-- The body of the command returned by `fetchBranchesCmd`, as a function of the outcomes
of `git rev-parse --abbrev-ref HEAD` and of `git for-each-ref`. -/
def fetchBranchesCmd (curr : CmdOutput) (listing : CmdOutput) : Msg :=
  let currentBranch : String :=
    if curr.err = none then ⟨TrimSpace curr.out.data⟩ else ""
  match listing.err with
  | some err => Msg.errMsg (some err)
  | none =>
    let r := fetchLoop currentBranch (listingLines listing.out) 0 [] 0
    Msg.branchesMsgWithSelection r.1 (r.2 : Int)

/-! ## The update function -/

/-- The collaborators `Update` calls out to. -/
structure Env where
  /-- the sixteen bytes the random source yields to `uuid.New` -/
  rand : Fin 16 → Fin 256
  /-- the outcome of `createAndCheckoutBranch` (`git checkout -b name`); `none` is success -/
  createAndCheckoutBranch : String → Option GoError
  /-- the list widget's own `Update` -/
  listUpdate : ListModel → Msg → ListModel × Option Cmd

/-- What one call of `Update` yields: the new model, the returned command (`none` for
`nil`), the name handed to `createAndCheckoutBranch` if it was called, and the text
written by `fmt.Printf` if any. -/
structure Step where
  m : model
  cmd : Option Cmd
  requested : Option String
  printed : Option String
deriving DecidableEq, Repr

/-- The tail of `Update`: the message goes to the list of the active stage. -/
def delegateToList (env : Env) (m : model) (msg : Msg) : Step :=
  if m.stage = 0 then
    let r := env.listUpdate m.branches msg
    ⟨{ m with branches := r.1 }, r.2, none, none⟩
  else
    let r := env.listUpdate m.categories msg
    ⟨{ m with categories := r.1 }, r.2, none, none⟩

/-- The `catItems` slice built from the `categories` table. -/
def catItems : List Item :=
  categories.map fun c => Item.category ⟨c.1, c.2⟩

/-- The method `model.Update`: handles messages and user input. -/
def Update (env : Env) (m : model) (msg : Msg) : Step :=
  match msg with
  | .branchesMsgWithSelection items selectedIx =>
    let m1 := { m with branches := m.branches.SetItems items }
    let m2 := if items.length > 0 then { m1 with branches := m1.branches.Select selectedIx } else m1
    ⟨m2, none, none, none⟩
  | .errMsg err => ⟨{ m with err := err }, none, none, none⟩
  | .WindowSizeMsg Width Height =>
    ⟨{ m with
        width := Width
        height := Height
        branches := m.branches.SetSize Width (Height - 5)
        categories := m.categories.SetSize Width (Height - 5) }, none, none, none⟩
  | .KeyMsg key =>
    if key = "ctrl+c" ∨ key = "q" ∨ key = "esc" then ⟨m, some Cmd.Quit, none, none⟩
    else if key = "enter" then
      if m.stage = 0 then
        if m.branches.Items.length = 0 then
          ⟨{ m with err := some ⟨"no branches found"⟩ }, none, none, none⟩
        else
          match m.branches.SelectedItem with
          | some (Item.branch selected) =>
            ⟨{ m with
                selectedBranch := selected
                categories := (m.categories.SetItems catItems).Select 0
                stage := 1
                err := none }, none, none, none⟩
          | _ => ⟨{ m with err := some ⟨"failed to get selected branch"⟩ }, none, none, none⟩
      else if m.stage = 1 then
        match m.categories.SelectedItem with
        | some (Item.category selectedCat) =>
          let id := uuidNew env.rand
          let name := branchName selectedCat.Code id
          match env.createAndCheckoutBranch name with
          | some err =>
            ⟨{ m with err := some ⟨"failed to create branch: " ++ err.msg⟩ },
              none, some name, none⟩
          | none =>
            ⟨m, some Cmd.Quit, some name,
              some ("\n‚úÖ Created and switched to branch: " ++ name ++ "\n")⟩
        | _ => ⟨{ m with err := some ⟨"failed to get selected category"⟩ }, none, none, none⟩
      else delegateToList env m msg
    else delegateToList env m msg
  | .otherMsg _ => delegateToList env m msg

/-! ## Auxiliary definitions used in the statements -/

/-- The branch items for the non-empty lines of a listing, in order. -/
def branchItemsOf (lines : List String) : List Item :=
  (lines.filter fun l => l ≠ "").map fun l => Item.branch ⟨l⟩

/-- What git prints for a list of names: every name followed by a newline. -/
def printLines (names : List String) : String :=
  ⟨names.flatMap fun n => n.data ++ ['\n']⟩

/-- A name that trimming and splitting leave as it is: it has a first and a last
character, neither of them white space, and it holds no newline. -/
def plainName (n : String) : Bool :=
  match n.data.head?, n.data.getLast? with
  | some a, some z => !isSpace a && !isSpace z && !n.data.contains '\n'
  | _, _ => false

/-- The names joined by single newlines, with no newline at the end. -/
def joinNewline : List (List Char) → List Char
  | [] => []
  | n :: rest => n ++ rest.flatMap fun m => '\n' :: m

/-- The interaction loop on a sequence of messages, each with the behaviour of the collaborators
at that moment: every message is passed to `Update` and the returned model is kept. -/
def run (m : model) : List (Env × Msg) → model
  | [] => m
  | x :: xs => run (Update x.1 m x.2).m xs

/-- The key message for the confirm key. -/
def enter : Msg := Msg.KeyMsg "enter"

/-- An environment in which branch creation succeeds and the widget ignores messages. -/
def okEnv : Env :=
  { rand := fun i => Fin.ofNat (i.val * 37 + 11)
    createAndCheckoutBranch := fun _ => none
    listUpdate := fun l _ => (l, none) }

/-- An environment in which branch creation fails. -/
def failEnv : Env :=
  { rand := fun i => Fin.ofNat (i.val * 37 + 11)
    createAndCheckoutBranch := fun _ => some ⟨"exit status 128"⟩
    listUpdate := fun l _ => (l, none) }

/-- A branch-stage state after a fetch of `main` and `dev`, with `dev` selected and a
stale error. -/
def branchStageModel : model :=
  { newModel with
    branches := ⟨[Item.branch ⟨"main"⟩, Item.branch ⟨"dev"⟩], 1, 80, 15⟩
    err := some ⟨"stale"⟩ }

/-- A category-stage state: `dev` was chosen and the cursor is on `Fix`. -/
def categoryStageModel : model :=
  { newModel with
    stage := 1
    branches := ⟨[Item.branch ⟨"main"⟩, Item.branch ⟨"dev"⟩], 1, 80, 15⟩
    categories := ⟨catItems, 2, 80, 15⟩
    selectedBranch := ⟨"dev"⟩ }

/-! ## Lemmas on the identifier text -/

theorem unhex_hexDigit : ∀ n : Fin 16, unhex (hexDigit n.val) = n.val := by decide

theorem hexDigit_mem : ∀ n : Fin 16, hexDigit n.val ∈ hextable := by decide

theorem hexDigit_utf8Size : ∀ n : Fin 16, (hexDigit n.val).utf8Size = 1 := by decide

theorem hyphen_not_mem_hextable : '-' ∉ hextable := by decide

theorem hexDigit_hi_mem (b : Fin 256) : hexDigit (b.val / 16) ∈ hextable :=
  hexDigit_mem ⟨b.val / 16, by omega⟩

theorem hexDigit_lo_mem (b : Fin 256) : hexDigit (b.val % 16) ∈ hextable :=
  hexDigit_mem ⟨b.val % 16, by omega⟩

theorem hexDigit_hi_utf8Size (b : Fin 256) : (hexDigit (b.val / 16)).utf8Size = 1 :=
  hexDigit_utf8Size ⟨b.val / 16, by omega⟩

theorem hexDigit_lo_utf8Size (b : Fin 256) : (hexDigit (b.val % 16)).utf8Size = 1 :=
  hexDigit_utf8Size ⟨b.val % 16, by omega⟩

/-- The two digits of a byte determine the byte. -/
theorem byte_eq_of_digits (a b : Fin 256)
    (hhi : hexDigit (a.val / 16) = hexDigit (b.val / 16))
    (hlo : hexDigit (a.val % 16) = hexDigit (b.val % 16)) : a = b := by
  have h1 := unhex_hexDigit ⟨a.val / 16, by omega⟩
  have h2 := unhex_hexDigit ⟨b.val / 16, by omega⟩
  have h3 := unhex_hexDigit ⟨a.val % 16, by omega⟩
  have h4 := unhex_hexDigit ⟨b.val % 16, by omega⟩
  simp only at h1 h2 h3 h4
  rw [hhi, h2] at h1
  rw [hlo, h4] at h3
  apply Fin.ext
  omega

/-- The first eight characters of the hyphenated text are the digits of bytes 0 to 3. -/
theorem sliceTo_String_eight (u : UUID) :
    sliceTo u.String 8 =
      ⟨[hexDigit ((u 0).val / 16), hexDigit ((u 0).val % 16),
        hexDigit ((u 1).val / 16), hexDigit ((u 1).val % 16),
        hexDigit ((u 2).val / 16), hexDigit ((u 2).val % 16),
        hexDigit ((u 3).val / 16), hexDigit ((u 3).val % 16)]⟩ := rfl

/-- The synthesized name as a list of characters. -/
theorem branchName_data (c : String) (u : UUID) :
    (branchName c u).data = '@' :: (c.data ++ '/' :: (sliceTo u.String 8).data) := by
  simp [branchName, String.data_append]

/-- The call `uuid.New` leaves the first four bytes of the random input as they are. -/
theorem uuidNew_low (rnd : Fin 16 → Fin 256) (i : Fin 16) (h : i.val < 4) :
    uuidNew rnd i = rnd i := by
  have h6 : i ≠ 6 := by
    intro e; rw [e] at h; revert h; decide
  have h8 : i ≠ 8 := by
    intro e; rw [e] at h; revert h; decide
  simp [uuidNew, h6, h8]

/-! ## The update function, case by case -/

theorem Update_fetch (env : Env) (m : model) (items : List Item) (ix : Int) :
    Update env m (Msg.branchesMsgWithSelection items ix) =
      ⟨{ m with branches :=
          if items.length > 0 then (m.branches.SetItems items).Select ix
          else m.branches.SetItems items }, none, none, none⟩ := by
  unfold Update
  by_cases h : items.length > 0 <;> simp [h]

theorem Update_enter_branch_empty (env : Env) (m : model) (hs : m.stage = 0)
    (he : m.branches.items = []) :
    Update env m enter =
      ⟨{ m with err := some ⟨"no branches found"⟩ }, none, none, none⟩ := by
  simp [Update, enter, hs, ListModel.Items, he]

theorem Update_enter_branch_ok (env : Env) (m : model) (b : branchItem) (hs : m.stage = 0)
    (hsel : m.branches.SelectedItem = some (Item.branch b)) :
    Update env m enter =
      ⟨{ m with
          selectedBranch := b
          categories := (m.categories.SetItems catItems).Select 0
          stage := 1
          err := none }, none, none, none⟩ := by
  have hne : m.branches.items.length ≠ 0 := by
    intro h0
    simp [ListModel.SelectedItem, h0] at hsel
  simp [Update, enter, hs, ListModel.Items, hne, hsel]

theorem Update_enter_category (env : Env) (m : model) (cat : categoryItem)
    (hs : m.stage = 1) (hsel : m.categories.SelectedItem = some (Item.category cat)) :
    Update env m enter =
      match env.createAndCheckoutBranch (branchName cat.Code (uuidNew env.rand)) with
      | some err =>
        ⟨{ m with err := some ⟨"failed to create branch: " ++ err.msg⟩ },
          none, some (branchName cat.Code (uuidNew env.rand)), none⟩
      | none =>
        ⟨m, some Cmd.Quit, some (branchName cat.Code (uuidNew env.rand)),
          some ("\n‚úÖ Created and switched to branch: " ++
            branchName cat.Code (uuidNew env.rand) ++ "\n")⟩ := by
  simp [Update, enter, hs, hsel]

/-- In the category stage every message leaves the stage and the chosen branch alone. -/
theorem Update_category_stage_frame (env : Env) (m : model) (msg : Msg) (hs : m.stage = 1) :
    (Update env m msg).m.selectedBranch = m.selectedBranch ∧ (Update env m msg).m.stage = 1 := by
  cases msg with
  | branchesMsgWithSelection items ix =>
    rw [Update_fetch]; exact ⟨rfl, hs⟩
  | errMsg e => exact ⟨rfl, hs⟩
  | WindowSizeMsg W H => exact ⟨rfl, hs⟩
  | otherMsg t =>
    simp [Update, delegateToList, hs]
  | KeyMsg key =>
    by_cases hq : key = "ctrl+c" ∨ key = "q" ∨ key = "esc"
    · simp [Update, hq, hs]
    · by_cases he : key = "enter"
      · subst he
        cases hsel : m.categories.SelectedItem with
        | none => simp [Update, hs, hsel]
        | some it =>
          cases it with
          | branch b => simp [Update, hs, hsel]
          | category c =>
            rw [show Msg.KeyMsg "enter" = enter from rfl, Update_enter_category env m c hs hsel]
            cases env.createAndCheckoutBranch (branchName c.Code (uuidNew env.rand)) <;>
              exact ⟨rfl, hs⟩
      · simp [Update, hq, he, delegateToList, hs]

/-! ## The fetch loop -/

/-- The items the loop yields are the accumulated ones followed by one branch item per
non-empty line. -/
theorem fetchLoop_items (cur : String) (lines : List String) :
    ∀ (i : Nat) (acc : List Item) (sel : Nat),
      (fetchLoop cur lines i acc sel).1 = acc ++ branchItemsOf lines := by
  induction lines with
  | nil => intro i acc sel; simp [fetchLoop, branchItemsOf]
  | cons l ls ih =>
    intro i acc sel
    by_cases h : l = ""
    · simp [fetchLoop, h, ih, branchItemsOf]
    · simp [fetchLoop, h, ih, branchItemsOf]

/-- With no current branch known (the empty name) the loop never moves the index. -/
theorem fetchLoop_sel_unknown (lines : List String) :
    ∀ (i : Nat) (acc : List Item) (sel : Nat), (fetchLoop "" lines i acc sel).2 = sel := by
  induction lines with
  | nil => intro i acc sel; rfl
  | cons l ls ih =>
    intro i acc sel
    by_cases h : l = ""
    · simp [fetchLoop, h, ih]
    · simp [fetchLoop, h, ih]

/-- When no line is blank the loop counter is the item position: the delivered index
points at the current branch if it is listed and keeps its start value otherwise. -/
theorem fetchLoop_index_no_blank (cur : String) (lines : List String) :
    ∀ (i : Nat) (acc : List Item) (sel : Nat), (∀ l ∈ lines, l ≠ "") → acc.length = i →
      (cur ∈ lines →
        (fetchLoop cur lines i acc sel).1.get? (fetchLoop cur lines i acc sel).2 =
          some (Item.branch ⟨cur⟩)) ∧
      (cur ∉ lines → (fetchLoop cur lines i acc sel).2 = sel) := by
  induction lines with
  | nil => intro i acc sel _ _; simp [fetchLoop]
  | cons l ls ih =>
    intro i acc sel hnb hlen
    have hl : l ≠ "" := hnb l (List.mem_cons_self _ _)
    have hls : ∀ x ∈ ls, x ≠ "" := fun x hx => hnb x (List.mem_cons_of_mem _ hx)
    have hstep : fetchLoop cur (l :: ls) i acc sel =
        fetchLoop cur ls (i + 1) (acc ++ [Item.branch ⟨l⟩]) (if l = cur then i else sel) := by
      simp [fetchLoop, hl]
    rw [hstep]
    have hlen2 : (acc ++ [Item.branch ⟨l⟩]).length = i + 1 := by simp [hlen]
    obtain ⟨ih1, ih2⟩ := ih (i + 1) (acc ++ [Item.branch ⟨l⟩]) (if l = cur then i else sel)
      hls hlen2
    constructor
    · intro hmem
      by_cases hin : cur ∈ ls
      · exact ih1 hin
      · have hlc : l = cur := by
          rcases List.mem_cons.mp hmem with h | h
          · exact h.symm
          · exact absurd h hin
        rw [ih2 hin, fetchLoop_items]
        simp only [hlc, if_true]
        rw [List.append_assoc, ← hlen]
        simp [List.getElem_append_right]
    · intro hnot
      have hin : cur ∉ ls := fun h => hnot (List.mem_cons_of_mem _ h)
      have hlc : ¬ l = cur := fun h => hnot (h ▸ List.mem_cons_self _ _)
      rw [ih2 hin]
      simp [hlc]

/-- On a listing without blank lines the fetch delivers the position of the current
branch among the items when it is listed, and 0 otherwise. -/
theorem fetch_index_of_no_blank_line (currentBranch : String) (lines : List String)
    (hnb : ∀ l ∈ lines, l ≠ "") :
    (fetchLoop currentBranch lines 0 [] 0).1 = lines.map (fun l => Item.branch ⟨l⟩) ∧
    (currentBranch ∈ lines →
      (fetchLoop currentBranch lines 0 [] 0).1.get? (fetchLoop currentBranch lines 0 [] 0).2 =
        some (Item.branch ⟨currentBranch⟩)) ∧
    (currentBranch ∉ lines → (fetchLoop currentBranch lines 0 [] 0).2 = 0) := by
  obtain ⟨h1, h2⟩ := fetchLoop_index_no_blank currentBranch lines 0 [] 0 hnb rfl
  refine ⟨?_, h1, h2⟩
  rw [fetchLoop_items, branchItemsOf, List.nil_append]
  congr 1
  exact List.filter_eq_self.mpr (fun l hl => by simpa using hnb l hl)

/-! ## Trimming and splitting what git prints -/

theorem plainName_spec (n : String) (h : plainName n = true) :
    ∃ a z, n.data.head? = some a ∧ n.data.getLast? = some z ∧
      isSpace a = false ∧ isSpace z = false ∧ '\n' ∉ n.data := by
  unfold plainName at h
  cases hh : n.data.head? with
  | none => simp [hh] at h
  | some a =>
    cases hl : n.data.getLast? with
    | none => simp [hh, hl] at h
    | some z =>
      simp [hh, hl] at h
      exact ⟨a, z, rfl, rfl, h.1.1, h.1.2, h.2⟩

/-- Trailing white space is trimmed off a text whose two ends are not white space, and
nothing else is. -/
theorem TrimSpace_append_spaces (l ws : List Char) (a z : Char)
    (ha : l.head? = some a) (hz : l.getLast? = some z)
    (nsa : isSpace a = false) (nsz : isSpace z = false)
    (hws : ∀ c ∈ ws, isSpace c = true) : TrimSpace (l ++ ws) = l := by
  have h1 : (l ++ ws).dropWhile isSpace = l ++ ws := by
    cases l with
    | nil => simp at ha
    | cons x xs =>
      simp only [List.head?_cons, Option.some.injEq] at ha
      subst ha
      simp [List.dropWhile, nsa]
  have h2 : (ws.reverse ++ l.reverse).dropWhile isSpace = l.reverse := by
    rw [List.dropWhile_append_of_pos (fun c hc => hws c (List.mem_reverse.mp hc))]
    have hr : l.reverse.head? = some z := by rw [List.head?_reverse, hz]
    cases hlr : l.reverse with
    | nil => rw [hlr] at hr; simp at hr
    | cons x xs =>
      rw [hlr] at hr
      simp only [List.head?_cons, Option.some.injEq] at hr
      subst hr
      simp [List.dropWhile, nsz]
  unfold TrimSpace
  rw [h1, List.reverse_append, h2, List.reverse_reverse]

theorem splitNewline_of_no_newline (n : List Char) (h : '\n' ∉ n) : splitNewline n = [n] := by
  induction n with
  | nil => rfl
  | cons c cs ih =>
    have hc : c ≠ '\n' := fun e => h (e ▸ List.mem_cons_self _ _)
    have hcs : '\n' ∉ cs := fun e => h (List.mem_cons_of_mem _ e)
    simp [splitNewline, hc, ih hcs]

theorem splitNewline_append (n rest : List Char) (h : '\n' ∉ n) :
    splitNewline (n ++ '\n' :: rest) = n :: splitNewline rest := by
  induction n with
  | nil => simp [splitNewline]
  | cons c cs ih =>
    have hc : c ≠ '\n' := fun e => h (e ▸ List.mem_cons_self _ _)
    have hcs : '\n' ∉ cs := fun e => h (List.mem_cons_of_mem _ e)
    simp [splitNewline, hc, ih hcs]

theorem joinNewline_cons_cons (n m : List Char) (r : List (List Char)) :
    joinNewline (n :: m :: r) = n ++ '\n' :: joinNewline (m :: r) := by
  simp [joinNewline]

/-- Splitting the joined names gives the names back. -/
theorem splitNewline_joinNewline (names : List (List Char)) (hne : names ≠ [])
    (h : ∀ n ∈ names, '\n' ∉ n) : splitNewline (joinNewline names) = names := by
  induction names with
  | nil => exact absurd rfl hne
  | cons n rest ih =>
    cases rest with
    | nil =>
      simp only [joinNewline, List.flatMap_nil, List.append_nil]
      exact splitNewline_of_no_newline n (h n (List.mem_cons_self _ _))
    | cons m r =>
      rw [joinNewline_cons_cons, splitNewline_append n _ (h n (List.mem_cons_self _ _)),
        ih (List.cons_ne_nil _ _) (fun x hx => h x (List.mem_cons_of_mem _ hx))]

/-- Printing every name with a newline after it is the joined text plus one newline. -/
theorem flatMap_newline_eq (n : List Char) (rest : List (List Char)) :
    (n :: rest).flatMap (fun m => m ++ ['\n']) = joinNewline (n :: rest) ++ ['\n'] := by
  induction rest generalizing n with
  | nil => simp [joinNewline]
  | cons m r ih =>
    rw [joinNewline_cons_cons, List.flatMap_cons, ih m]
    simp

theorem joinNewline_getLast (names : List (List Char)) (hne : names ≠ [])
    (h : ∀ n ∈ names, ∃ z, n.getLast? = some z ∧ isSpace z = false) :
    ∃ z, (joinNewline names).getLast? = some z ∧ isSpace z = false := by
  induction names with
  | nil => exact absurd rfl hne
  | cons n rest ih =>
    cases rest with
    | nil =>
      simp only [joinNewline, List.flatMap_nil, List.append_nil]
      exact h n (List.mem_cons_self _ _)
    | cons m r =>
      obtain ⟨z, hz, hs⟩ := ih (List.cons_ne_nil _ _)
        (fun x hx => h x (List.mem_cons_of_mem _ hx))
      refine ⟨z, ?_, hs⟩
      rw [joinNewline_cons_cons, List.getLast?_append]
      cases hj : joinNewline (m :: r) with
      | nil => rw [hj] at hz; simp at hz
      | cons y ys =>
        rw [← hj, List.getLast?_cons, hz]
        rfl

/-- The lines read from a printed list of plain names are these names. -/
theorem listingLines_printLines (names : List String) (hne : names ≠ [])
    (hp : ∀ n ∈ names, plainName n = true) : listingLines (printLines names) = names := by
  cases names with
  | nil => exact absurd rfl hne
  | cons n rest =>
    have hdata : (printLines (n :: rest)).data =
        joinNewline ((n :: rest).map String.data) ++ ['\n'] := by
      have := flatMap_newline_eq n.data (rest.map String.data)
      simp only [printLines, List.map_cons]
      rw [← this]
      simp [List.flatMap_map]
    obtain ⟨a, z0, ha, _, nsa, _, _⟩ := plainName_spec n (hp n (List.mem_cons_self _ _))
    have hhead : (joinNewline ((n :: rest).map String.data)).head? = some a := by
      simp [joinNewline, ha]
    obtain ⟨z, hz, nsz⟩ := joinNewline_getLast ((n :: rest).map String.data)
      (by simp) (by
        intro x hx
        obtain ⟨s, hs, rfl⟩ := List.mem_map.mp hx
        obtain ⟨_, z1, _, hz1, _, ns1, _⟩ := plainName_spec s (hp s hs)
        exact ⟨z1, hz1, ns1⟩)
    have htrim : TrimSpace (printLines (n :: rest)).data =
        joinNewline ((n :: rest).map String.data) := by
      rw [hdata]
      exact TrimSpace_append_spaces _ _ a z hhead hz nsa nsz (by simp; decide)
    unfold listingLines
    rw [htrim, splitNewline_joinNewline _ (by simp) (by
      intro x hx
      obtain ⟨s, hs, rfl⟩ := List.mem_map.mp hx
      obtain ⟨_, _, _, _, _, _, hnl⟩ := plainName_spec s (hp s hs)
      exact hnl)]
    rw [List.map_map]
    exact List.map_id _

/-- The printed current branch, trimmed, is the name itself when the name is plain. -/
theorem TrimSpace_printed_name (c : String) (hc : plainName c = true) :
    (⟨TrimSpace (c ++ "\n").data⟩ : String) = c := by
  obtain ⟨a, z, ha, hz, nsa, nsz, _⟩ := plainName_spec c hc
  have : (c ++ "\n").data = c.data ++ ['\n'] := by simp [String.data_append]
  rw [this, TrimSpace_append_spaces _ _ a z ha hz nsa nsz (by simp; decide)]

/-- On what git prints for plain names (non-empty, no newline, no white space at either
end) the fetch delivers every name as an item and the position of the current branch
among them when it is listed, and 0 otherwise. -/
theorem fetch_index_on_plain_names (names : List String) (current : String)
    (hne : names ≠ []) (hp : ∀ n ∈ names, plainName n = true)
    (hc : plainName current = true) :
    ∃ ix : Nat,
      fetchBranchesCmd ⟨current ++ "\n", none⟩ ⟨printLines names, none⟩ =
        Msg.branchesMsgWithSelection (names.map fun n => Item.branch ⟨n⟩) ix ∧
      (current ∈ names →
        (names.map fun n => Item.branch ⟨n⟩).get? ix = some (Item.branch ⟨current⟩)) ∧
      (current ∉ names → ix = 0) := by
  have hnb : ∀ l ∈ names, l ≠ "" := by
    intro l hl e
    have := hp l hl
    rw [e] at this
    revert this
    decide
  obtain ⟨h1, h2, h3⟩ := fetch_index_of_no_blank_line current names hnb
  refine ⟨(fetchLoop current names 0 [] 0).2, ?_, ?_, h3⟩
  · simp only [fetchBranchesCmd, if_true, TrimSpace_printed_name current hc,
      listingLines_printLines names hne hp]
    rw [← h1]
  · intro hmem
    rw [← h1]
    exact h2 hmem

/-! ## The claims -/

/-- C1: on confirm in the category stage the name handed to branch creation is built from
the selected code and the fresh identifier, and for every code `c` and every identifier
`u` that name is `"@" ++ c ++ "/"` followed by the first 8 characters of the 36-character
hyphenated text of `u`; those 8 characters are hex digits, none is a hyphen, and the
name is 10 longer than `c` (in characters and in bytes). -/
theorem branch_name_format (env : Env) (m : model) (cat : categoryItem) (c : String)
    (u : UUID) (hs : m.stage = 1)
    (hsel : m.categories.SelectedItem = some (Item.category cat)) :
    (Update env m enter).requested = some (branchName cat.Code (uuidNew env.rand)) ∧
    branchName c u = "@" ++ c ++ "/" ++ sliceTo u.String 8 ∧
    u.String.length = 36 ∧
    (sliceTo u.String 8).data = u.String.data.take 8 ∧
    (sliceTo u.String 8).length = 8 ∧
    (∀ ch ∈ (sliceTo u.String 8).data, ch ∈ "0123456789abcdef".data ∧ ch ≠ '-') ∧
    (branchName c u).length = c.length + 10 ∧
    (branchName c u).utf8ByteSize = c.utf8ByteSize + 10 := by
  refine ⟨?_, rfl, rfl, rfl, rfl, ?_, ?_, ?_⟩
  · rw [Update_enter_category env m cat hs hsel]
    cases env.createAndCheckoutBranch (branchName cat.Code (uuidNew env.rand)) <;> rfl
  · intro ch hch
    have hmem : ch ∈ hextable := by
      rw [sliceTo_String_eight] at hch
      simp only [List.mem_cons, List.mem_nil_iff, or_false] at hch
      rcases hch with h | h | h | h | h | h | h | h <;> rw [h] <;>
        first | exact hexDigit_hi_mem _ | exact hexDigit_lo_mem _
    refine ⟨hmem, ?_⟩
    intro e
    rw [e] at hmem
    exact hyphen_not_mem_hextable hmem
  · simp only [String.length, branchName_data, sliceTo_String_eight, List.length_cons,
      List.length_append, List.length_nil]
  · have key : ∀ s : String, s.utf8ByteSize = String.utf8Len s.data := fun ⟨_⟩ => rfl
    have hat : '@'.utf8Size = 1 := by decide
    have hsl : '/'.utf8Size = 1 := by decide
    rw [key, key, branchName_data, sliceTo_String_eight]
    simp only [String.utf8Len_cons, String.utf8Len_append, String.utf8Len_nil,
      hexDigit_hi_utf8Size, hexDigit_lo_utf8Size, hat, hsl]

/-- Witness for C1: the category-stage example with the cursor on `Fix`. -/
theorem branch_name_format_witness :
    categoryStageModel.stage = 1 ∧
    categoryStageModel.categories.SelectedItem = some (Item.category ⟨"Fix", "fix"⟩) ∧
    (Update okEnv categoryStageModel enter).requested = some "@fix/0b30557a" ∧
    branchName "fix" (uuidNew okEnv.rand) = "@fix/0b30557a" ∧
    (branchName "fix" (uuidNew okEnv.rand)).length = "fix".length + 10 :=
  have h := branch_name_format okEnv categoryStageModel ⟨"Fix", "fix"⟩ "fix"
    (uuidNew okEnv.rand) (by decide) (by decide)
  ⟨by decide, by decide, h.1.trans (by decide), by decide, h.2.2.2.2.2.2.1⟩

/-- C2, evaluated where it fails: the checked-out branch is named `x` followed by the
ideographic space U+3000 and git lists it fourth of five. `bytes.TrimSpace` strips that
character from the reported current name, no listed name equals the stripped one, and
the fetch delivers index 0 although the current branch is the item at position 3;
`Update` applies index 0, which puts the cursor on `main`. -/
theorem fetch_index_trims_current_name :
    printLines ["main", "dev", "feat", "x\u3000", "old"] = "main\ndev\nfeat\nx\u3000\nold\n" ∧
    fetchBranchesCmd ⟨"x\u3000\n", none⟩ ⟨"main\ndev\nfeat\nx\u3000\nold\n", none⟩ =
      Msg.branchesMsgWithSelection
        [Item.branch ⟨"main"⟩, Item.branch ⟨"dev"⟩, Item.branch ⟨"feat"⟩,
         Item.branch ⟨"x\u3000"⟩, Item.branch ⟨"old"⟩] 0 ∧
    [Item.branch ⟨"main"⟩, Item.branch ⟨"dev"⟩, Item.branch ⟨"feat"⟩,
      Item.branch ⟨"x\u3000"⟩, Item.branch ⟨"old"⟩].get? 3 = some (Item.branch ⟨"x\u3000"⟩) ∧
    (Update okEnv newModel
      (fetchBranchesCmd ⟨"x\u3000\n", none⟩
        ⟨"main\ndev\nfeat\nx\u3000\nold\n", none⟩)).m.branches.index = 0 ∧
    (Update okEnv newModel
      (fetchBranchesCmd ⟨"x\u3000\n", none⟩
        ⟨"main\ndev\nfeat\nx\u3000\nold\n", none⟩)).m.branches.SelectedItem =
      some (Item.branch ⟨"main"⟩) := by
  refine ⟨by decide, by decide, by decide, by decide, by decide⟩

/-- C3 as stated fails: in the category stage a fetch-complete message still replaces the
branch list, so the returned state differs from the one `Update` was given. -/
theorem fetch_applied_in_category_stage :
    categoryStageModel.stage = 1 ∧
    (Update okEnv categoryStageModel
      (Msg.branchesMsgWithSelection [Item.branch ⟨"late"⟩] 0)).m.branches.items =
        [Item.branch ⟨"late"⟩] ∧
    (Update okEnv categoryStageModel
      (Msg.branchesMsgWithSelection [Item.branch ⟨"late"⟩] 0)).m ≠ categoryStageModel := by
  refine ⟨by decide, by decide, by decide⟩

/-- C3, amended: for every state in the category stage and every fetch-complete message,
`Update` replaces the items of the branch list by the message's items, moves the branch
selection to the delivered index when the items are non-empty, and leaves the stage, the
chosen branch, the category list and the error as they were, returning no command. -/
theorem fetch_complete_in_category_stage (env : Env) (m : model) (items : List Item)
    (ix : Int) (hs : m.stage = 1) :
    (Update env m (Msg.branchesMsgWithSelection items ix)).m.branches.items = items ∧
    (items ≠ [] →
      (Update env m (Msg.branchesMsgWithSelection items ix)).m.branches.index = ix) ∧
    (Update env m (Msg.branchesMsgWithSelection items ix)).m.stage = 1 ∧
    (Update env m (Msg.branchesMsgWithSelection items ix)).m.selectedBranch =
      m.selectedBranch ∧
    (Update env m (Msg.branchesMsgWithSelection items ix)).m.categories = m.categories ∧
    (Update env m (Msg.branchesMsgWithSelection items ix)).m.err = m.err ∧
    (Update env m (Msg.branchesMsgWithSelection items ix)).cmd = none := by
  rw [Update_fetch]
  refine ⟨?_, ?_, hs, rfl, rfl, rfl, rfl⟩
  · by_cases h : items.length > 0 <;> simp [h, ListModel.SetItems, ListModel.Select]
  · intro hne
    have h : items.length > 0 := List.length_pos.mpr hne
    simp [h, ListModel.SetItems, ListModel.Select]

/-- Witness for the amended C3: a late fetch result arriving in the category stage. -/
theorem fetch_complete_in_category_stage_witness :
    categoryStageModel.stage = 1 ∧
    (Update okEnv categoryStageModel
      (Msg.branchesMsgWithSelection [Item.branch ⟨"x"⟩, Item.branch ⟨"y"⟩] 1)).m.branches.items
        = [Item.branch ⟨"x"⟩, Item.branch ⟨"y"⟩] ∧
    (Update okEnv categoryStageModel
      (Msg.branchesMsgWithSelection [Item.branch ⟨"x"⟩, Item.branch ⟨"y"⟩] 1)).m.stage = 1 :=
  have h := fetch_complete_in_category_stage okEnv categoryStageModel
    [Item.branch ⟨"x"⟩, Item.branch ⟨"y"⟩] 1 (by decide)
  ⟨by decide, h.1, h.2.2.1⟩

/-- C4: in the branch stage, with a non-empty branch list whose cursor resolves to the
branch entry `b`, confirm records `b` as the chosen branch, moves to the category stage,
puts the category cursor on 0, clears the error whatever it was, and returns no
command (and requests no branch creation). -/
theorem confirm_branch_stage (env : Env) (m : model) (b : branchItem) (hs : m.stage = 0)
    (_hne : m.branches.Items ≠ [])
    (hsel : m.branches.SelectedItem = some (Item.branch b)) :
    (Update env m enter).m.selectedBranch = b ∧
    (Update env m enter).m.stage = 1 ∧
    (Update env m enter).m.categories.index = 0 ∧
    (Update env m enter).m.categories.SelectedItem = some (Item.category ⟨"CI/CD", "ci"⟩) ∧
    (Update env m enter).m.err = none ∧
    (Update env m enter).m.branches = m.branches ∧
    (Update env m enter).cmd = none ∧
    (Update env m enter).requested = none := by
  rw [Update_enter_branch_ok env m b hs hsel]
  exact ⟨rfl, rfl, rfl, rfl, rfl, rfl, rfl, rfl⟩

/-- Witness for C4: `dev` is selected and a stale error is present. -/
theorem confirm_branch_stage_witness :
    branchStageModel.stage = 0 ∧ branchStageModel.branches.Items ≠ [] ∧
    branchStageModel.branches.SelectedItem = some (Item.branch ⟨"dev"⟩) ∧
    branchStageModel.err = some ⟨"stale"⟩ ∧
    (Update okEnv branchStageModel enter).m.selectedBranch = ⟨"dev"⟩ ∧
    (Update okEnv branchStageModel enter).m.stage = 1 ∧
    (Update okEnv branchStageModel enter).m.err = none :=
  have h := confirm_branch_stage okEnv branchStageModel ⟨"dev"⟩ (by decide) (by decide)
    (by decide)
  ⟨by decide, by decide, by decide, by decide, h.1, h.2.1, h.2.2.2.2.1⟩

/-- C5: in the branch stage with an empty branch list, confirm keeps the stage, sets the
error to the non-empty text "no branches found", leaves the chosen branch and the
category list unchanged, and returns no command. -/
theorem confirm_empty_branch_list (env : Env) (m : model) (hs : m.stage = 0)
    (he : m.branches.Items = []) :
    (Update env m enter).m.stage = 0 ∧
    (Update env m enter).m.err = some ⟨"no branches found"⟩ ∧
    (∃ e, (Update env m enter).m.err = some e ∧ e.msg ≠ "") ∧
    (Update env m enter).m.selectedBranch = m.selectedBranch ∧
    (Update env m enter).m.categories = m.categories ∧
    (Update env m enter).m.branches = m.branches ∧
    (Update env m enter).cmd = none ∧
    (Update env m enter).requested = none := by
  rw [Update_enter_branch_empty env m hs he]
  exact ⟨hs, rfl, ⟨_, rfl, by decide⟩, rfl, rfl, rfl, rfl, rfl⟩

/-- Witness for C5: the initial state, before any fetch result. -/
theorem confirm_empty_branch_list_witness :
    newModel.stage = 0 ∧ newModel.branches.Items = [] ∧
    (Update okEnv newModel enter).m.stage = 0 ∧
    (Update okEnv newModel enter).m.err = some ⟨"no branches found"⟩ :=
  have h := confirm_empty_branch_list okEnv newModel (by decide) (by decide)
  ⟨by decide, by decide, h.1, h.2.1⟩

/-- C6: in the category stage with a resolving category, confirm requests creation of the
synthesized name and returns the quit command exactly when the creation succeeds; when
it fails with error `e` no command is returned, the error is set to
"failed to create branch: " followed by the text of `e`, and the stage, the chosen
branch and the category list are unchanged. -/
theorem confirm_category_stage (env : Env) (m : model) (cat : categoryItem)
    (hs : m.stage = 1) (hsel : m.categories.SelectedItem = some (Item.category cat)) :
    (Update env m enter).requested = some (branchName cat.Code (uuidNew env.rand)) ∧
    ((Update env m enter).cmd = some Cmd.Quit ↔
      env.createAndCheckoutBranch (branchName cat.Code (uuidNew env.rand)) = none) ∧
    (env.createAndCheckoutBranch (branchName cat.Code (uuidNew env.rand)) = none →
      (Update env m enter).m = m) ∧
    (∀ e, env.createAndCheckoutBranch (branchName cat.Code (uuidNew env.rand)) = some e →
      (Update env m enter).cmd = none ∧
      (Update env m enter).m.err = some ⟨"failed to create branch: " ++ e.msg⟩ ∧
      (Update env m enter).m.stage = 1 ∧
      (Update env m enter).m.selectedBranch = m.selectedBranch ∧
      (Update env m enter).m.categories = m.categories) := by
  rw [Update_enter_category env m cat hs hsel]
  cases hc : env.createAndCheckoutBranch (branchName cat.Code (uuidNew env.rand)) with
  | none => simp
  | some e0 =>
    refine ⟨rfl, by simp, by simp, ?_⟩
    intro e he
    cases he
    exact ⟨rfl, rfl, hs, rfl, rfl⟩

/-- Witness for C6: creation fails for the category-stage example. -/
theorem confirm_category_stage_witness :
    categoryStageModel.stage = 1 ∧
    categoryStageModel.categories.SelectedItem = some (Item.category ⟨"Fix", "fix"⟩) ∧
    failEnv.createAndCheckoutBranch "@fix/0b30557a" = some ⟨"exit status 128"⟩ ∧
    (Update failEnv categoryStageModel enter).requested = some "@fix/0b30557a" ∧
    (Update failEnv categoryStageModel enter).cmd = none ∧
    (Update failEnv categoryStageModel enter).m.err =
      some ⟨"failed to create branch: exit status 128"⟩ ∧
    (Update failEnv categoryStageModel enter).m.stage = 1 :=
  have h := confirm_category_stage failEnv categoryStageModel ⟨"Fix", "fix"⟩ (by decide)
    (by decide)
  have hf := h.2.2.2 ⟨"exit status 128"⟩ rfl
  ⟨by decide, by decide, rfl, h.1.trans (by decide), hf.1, hf.2.1.trans (by decide), hf.2.2.1⟩

/-- C7: the fetch fails exactly when the listing query fails. Whatever the current-branch
query returned, a listing error `e` gives the failure message carrying `e`, and a
successful listing gives a branch-list message holding one item per non-empty line;
when the current-branch query failed that message carries index 0, as for an unknown
current branch. -/
theorem fetch_fails_iff_listing_fails (currOut : String) (currErr : Option GoError)
    (out : String) (listErr : Option GoError) (e ce : GoError) :
    fetchBranchesCmd ⟨currOut, currErr⟩ ⟨out, some e⟩ = Msg.errMsg (some e) ∧
    (∃ ix : Nat, fetchBranchesCmd ⟨currOut, currErr⟩ ⟨out, none⟩ =
      Msg.branchesMsgWithSelection (branchItemsOf (listingLines out)) ix) ∧
    fetchBranchesCmd ⟨currOut, some ce⟩ ⟨out, none⟩ =
      Msg.branchesMsgWithSelection (branchItemsOf (listingLines out)) 0 ∧
    ((∃ err, fetchBranchesCmd ⟨currOut, currErr⟩ ⟨out, listErr⟩ = Msg.errMsg err) ↔
      listErr ≠ none) := by
  have hok : ∀ cur : String, (fetchLoop cur (listingLines out) 0 [] 0).1 =
      branchItemsOf (listingLines out) := by
    intro cur
    rw [fetchLoop_items, List.nil_append]
  refine ⟨rfl, ?_, ?_, ?_⟩
  · refine ⟨(fetchLoop (if currErr = none then ⟨TrimSpace currOut.data⟩ else "")
      (listingLines out) 0 [] 0).2, ?_⟩
    simp only [fetchBranchesCmd, hok]
  · simp [fetchBranchesCmd, hok, fetchLoop_sel_unknown]
  · cases listErr with
    | none => simp [fetchBranchesCmd]
    | some e1 => simp [fetchBranchesCmd]

/-- C8: whenever confirm in the branch stage succeeds (the stage moves from 0 to 1), the
category list holds exactly the six registry pairs in the registry order, whatever it
held before and whichever branch was chosen. -/
theorem category_list_is_registry (env : Env) (m : model) (hs : m.stage = 0)
    (hok : (Update env m enter).m.stage = 1) :
    (Update env m enter).m.categories.Items =
      [Item.category ⟨"CI/CD", "ci"⟩, Item.category ⟨"Feature", "feat"⟩,
       Item.category ⟨"Fix", "fix"⟩, Item.category ⟨"Performance", "perf"⟩,
       Item.category ⟨"Refactor", "refactor"⟩, Item.category ⟨"Test", "test"⟩] := by
  by_cases he : m.branches.Items = []
  · rw [Update_enter_branch_empty env m hs he] at hok
    simp [hs] at hok
  · cases hsel : m.branches.SelectedItem with
    | none =>
      simp [Update, enter, hs, hsel] at hok
      split at hok <;> simp [hs] at hok
    | some it =>
      cases it with
      | branch b => rw [Update_enter_branch_ok env m b hs hsel]; rfl
      | category c =>
        simp [Update, enter, hs, hsel] at hok
        split at hok <;> simp [hs] at hok

/-- Witness for C8: the category list held something else before the confirm. -/
theorem category_list_is_registry_witness :
    ({ branchStageModel with categories := ⟨[Item.branch ⟨"junk"⟩], 7, 1, 1⟩ } : model).stage
      = 0 ∧
    (Update okEnv { branchStageModel with categories := ⟨[Item.branch ⟨"junk"⟩], 7, 1, 1⟩ }
      enter).m.stage = 1 ∧
    (Update okEnv { branchStageModel with categories := ⟨[Item.branch ⟨"junk"⟩], 7, 1, 1⟩ }
      enter).m.categories.Items =
      [Item.category ⟨"CI/CD", "ci"⟩, Item.category ⟨"Feature", "feat"⟩,
       Item.category ⟨"Fix", "fix"⟩, Item.category ⟨"Performance", "perf"⟩,
       Item.category ⟨"Refactor", "refactor"⟩, Item.category ⟨"Test", "test"⟩] :=
  ⟨by decide, by decide,
    category_list_is_registry okEnv
      { branchStageModel with categories := ⟨[Item.branch ⟨"junk"⟩], 7, 1, 1⟩ }
      (by decide) (by decide)⟩

/-- C9: once the stage is the category stage, no message changes the chosen branch or the
stage: this holds for one call of `Update` on any message, with any behaviour of the
collaborators, and hence for any sequence of such calls. -/
theorem category_stage_is_absorbing (m : model) (hs : m.stage = 1) :
    (∀ (env : Env) (msg : Msg),
      (Update env m msg).m.selectedBranch = m.selectedBranch ∧
      (Update env m msg).m.stage = 1) ∧
    (∀ inputs : List (Env × Msg),
      (run m inputs).selectedBranch = m.selectedBranch ∧ (run m inputs).stage = 1) := by
  refine ⟨fun env msg => Update_category_stage_frame env m msg hs, ?_⟩
  intro inputs
  induction inputs generalizing m with
  | nil => exact ⟨rfl, hs⟩
  | cons x xs ih =>
    obtain ⟨h1, h2⟩ := Update_category_stage_frame x.1 m x.2 hs
    obtain ⟨h3, h4⟩ := ih (Update x.1 m x.2).m h2
    exact ⟨by rw [run, h3, h1], by rw [run, h4]⟩

/-- Witness for C9: a late fetch result, a fetch error, a resize, a navigation key, a failed
confirm and the quit key, one after the other, in the category-stage example. -/
theorem category_stage_is_absorbing_witness :
    categoryStageModel.stage = 1 ∧
    (run categoryStageModel
      [(okEnv, Msg.branchesMsgWithSelection [Item.branch ⟨"late"⟩] 0),
       (okEnv, Msg.errMsg (some ⟨"boom"⟩)),
       (okEnv, Msg.WindowSizeMsg 100 40),
       (okEnv, Msg.KeyMsg "down"),
       (failEnv, enter),
       (okEnv, Msg.KeyMsg "q")]).selectedBranch = ⟨"dev"⟩ ∧
    (Update failEnv categoryStageModel enter).m.stage = 1 :=
  have h := category_stage_is_absorbing categoryStageModel (by decide)
  ⟨by decide, (h.2 _).1, (h.1 failEnv enter).2⟩

/-- C10: for every code `c` and identifiers `u`, `v`, the names built from `(c, u)` and
`(c, v)` are equal exactly when `u` and `v` agree on bytes 0 to 3; in particular two
distinct identifiers (also two produced by `uuid.New`) can give the same name. -/
theorem name_depends_on_first_four_bytes (c : String) (u v : UUID) :
    (branchName c u = branchName c v ↔ ∀ i : Fin 16, i.val < 4 → u i = v i) ∧
    (∃ r s : Fin 16 → Fin 256, uuidNew r ≠ uuidNew s ∧
      branchName c (uuidNew r) = branchName c (uuidNew s)) := by
  have hback : ∀ a b : UUID, (∀ i : Fin 16, i.val < 4 → a i = b i) →
      branchName c a = branchName c b := by
    intro a b h
    have e0 := h 0 (by decide)
    have e1 := h 1 (by decide)
    have e2 := h 2 (by decide)
    have e3 := h 3 (by decide)
    apply String.ext
    rw [branchName_data, branchName_data, sliceTo_String_eight, sliceTo_String_eight,
      e0, e1, e2, e3]
  refine ⟨⟨?_, hback u v⟩, ?_⟩
  · intro h
    have hd := congrArg String.data h
    rw [branchName_data, branchName_data] at hd
    have ht := List.append_cancel_left (List.cons.inj hd).2
    have ht2 := (List.cons.inj ht).2
    rw [sliceTo_String_eight, sliceTo_String_eight] at ht2
    simp only [List.cons.injEq, and_true] at ht2
    obtain ⟨a0, b0, a1, b1, a2, b2, a3, b3⟩ := ht2
    have e0 := byte_eq_of_digits _ _ a0 b0
    have e1 := byte_eq_of_digits _ _ a1 b1
    have e2 := byte_eq_of_digits _ _ a2 b2
    have e3 := byte_eq_of_digits _ _ a3 b3
    intro i hi
    have hcases : i = 0 ∨ i = 1 ∨ i = 2 ∨ i = 3 := by
      revert hi; revert i; decide
    rcases hcases with h | h | h | h <;> rw [h] <;> assumption
  · refine ⟨fun _ => 0, fun i => if i = 15 then 1 else 0, ?_, ?_⟩
    · intro h
      have h15 := congrFun h 15
      revert h15
      decide
    · apply hback
      intro i hi
      rw [uuidNew_low _ i hi, uuidNew_low _ i hi]
      have hne : i ≠ 15 := by
        intro e; rw [e] at hi; revert hi; decide
      simp [hne]

end Granch
